import Mathlib

/-!
Verification of the crm-bot core algorithms against their natural-language
specification.  The Python sources are shallowly embedded as executable Lean
definitions:

* `LogHelper.convert_logs_to_str` (src/bot/helper.py, lines 200-223): log
  rendering, the size-bounded suffix window (binary search over the start
  index), leading-newline stripping and the spoiler wrapper.
* `DAOContact.search` (src/api/contacts/dao.py, lines 51-58): fuzzy name
  resolution through `difflib.get_close_matches`, embedded here including
  `SequenceMatcher`'s Ratcliff/Obershelp matching-block ratio (for the
  junk-free regime: queries shorter than 200 characters, below the autojunk
  threshold).  Python float ratios `2*M/T` are represented exactly as
  numerator/denominator pairs compared by cross multiplication.
* `DAOContact.create` / `DAOContact.update` (dao.py, lines 21-49): the
  transactional contact store.  The database session (`src/api/dao_base.py`
  and the SQLAlchemy engine are not part of the sources) is modelled from the
  spec as a base/transaction pair of row lists with a unique-name constraint
  checked at flush time.
* `StatsHelper.get_days_count_since_last_interaction` (helper.py, lines
  328-364): recency bucketing with interleaved tier headers.

Machine integers do not overflow in any of this code, so Python ints are
`Nat`/`Int`; Python's floor division `//` is `Int`'s `/`.
-/

namespace Crm

/-- Embeds `TelegramHelper._escape_markdown_v2`'s character class
`([_*\[\]()~`>#+\-=|{}.!])` (helper.py line 72). -/
def escapeChars : List Char :=
  ['_', '*', '[', ']', '(', ')', '~', '\x60', '>', '#', '+', '-', '=', '|',
   '\x7b', '\x7d', '.', '!']

/-- Embeds `TelegramHelper._escape_markdown_v2` (helper.py lines 69-72):
`re.sub(r'([_*\[\]()~`>#+\-=|{}.!])', r'\\\1', text)`, returning falsy input
unchanged. -/
def escape_markdown_v2 (text : String) : String :=
  if text = "" then text
  else String.mk
    ((text.data.map fun c => if c ∈ escapeChars then ['\\', c] else [c]).flatten)

/-- Embeds `TelegramHelper._create_spoiler` (helper.py lines 75-76). -/
def create_spoiler (text : String) : String :=
  "||" ++ text ++ "||"

/-- Embeds Python's `str.lower` on the ASCII range (`Char.toLower` lowercases
exactly `'A'..'Z'`; every string appearing in the repository's data is
ASCII). -/
def strLower (s : String) : String :=
  String.mk (s.data.map Char.toLower)

/-- One log entry as delivered to `convert_logs_to_str`: the JSON objects
`{'number': ..., 'log': ...}` inside a day group. -/
structure LogItem where
  number : Nat
  log : String
deriving DecidableEq, Repr

/-- One day group as delivered to `convert_logs_to_str`: the JSON objects
`{'date': ..., 'logs': [...]}`. -/
structure LogDay where
  date : String
  logs : List LogItem
deriving DecidableEq, Repr

/-- Embeds the rendering loop of `LogHelper.convert_logs_to_str` (helper.py
lines 202-209): one `"\n*{date}:*"` line per day followed by one
`"— {number}: {text}"` line per entry, all Markdown-escaped. -/
def renderLogs (logs : List LogDay) : List String :=
  (logs.map fun data =>
    ("\n*" ++ escape_markdown_v2 data.date ++ ":*") ::
      data.logs.map fun lg =>
        "— " ++ toString lg.number ++ ": " ++ escape_markdown_v2 lg.log).flatten

/-- Embeds Python's `'\n'.join`. -/
def joinNL : List String → String
  | [] => ""
  | [x] => x
  | x :: y :: xs => x ++ "\n" ++ joinNL (y :: xs)

/-- Embeds the `while p1 < p2` binary-search loop of `convert_logs_to_str`
(helper.py lines 212-219).  `text` carries the join computed by the most
recent probe, exactly as the Python variable does; the loop returns whatever
`text` holds when `p1 < p2` first fails.  The structural `fuel` argument
dominates the loop's iteration count ((`p2 - p1`) shrinks every iteration);
`windowLoop_fuel_irrelevant` below shows any sufficient fuel computes the
same result, so the definition is the loop's denotation. -/
def windowLoop (lines : List String) (maxBytes : Nat) :
    Nat → String → Int → Int → String
  | 0, text, _, _ => text
  | fuel + 1, text, p1, p2 =>
    if p1 < p2 then
      let m := (p1 + p2) / 2
      let text' := joinNL (lines.drop m.toNat)
      if maxBytes < text'.length then windowLoop lines maxBytes fuel text' (m + 1) p2
      else windowLoop lines maxBytes fuel text' p1 m
    else text

/-- Embeds `if len(text) > 0 and text[0] == '\n': text = text[1:]`
(helper.py lines 221-222). -/
def stripLeadingNewline (text : String) : String :=
  match text.data with
  | '\n' :: rest => String.mk rest
  | _ => text

/-- The windowing component of `convert_logs_to_str` (helper.py lines
211-222): initial join of all lines, the binary-search loop, and the
leading-newline strip.  The budget is the hard-coded `4000` at line 216,
taken here as a parameter and instantiated by the caller. -/
def windowLines (lines : List String) (maxBytes : Nat) : String :=
  let text := joinNL lines
  let text := windowLoop lines maxBytes lines.length text 0 ((lines.length : Int) - 1)
  stripLeadingNewline text

/-- Embeds `LogHelper.convert_logs_to_str` (helper.py lines 200-223):
rendering, windowing with the 4000-byte budget, and the spoiler wrapper
applied last. -/
def convert_logs_to_str (logs : List LogDay) : String :=
  create_spoiler (windowLines (renderLogs logs) 4000)

/-- Embeds `LogHelper.text_is_empty` (helper.py lines 194-198). -/
def text_is_empty (text : String) : Bool :=
  if text.isEmpty || text == "" || text == "||||" then true else false

/-- Length of the common prefix of two character lists: the length of the
matching run that starts at a given pair of positions of the two sequences
compared by `difflib.SequenceMatcher`. -/
def runLen : List Char → List Char → Nat
  | a :: as', b :: bs' => if a = b then runLen as' bs' + 1 else 0
  | _, _ => 0

/-- One candidate inspection of `SequenceMatcher.find_longest_match`'s
dynamic-programming scan: a strictly longer matching run starting at
`(i, j)` replaces the incumbent `(besti, bestj, bestsize)`. -/
def flmStep (a b : List Char) (i : Nat) (best : Nat × Nat × Nat) (j : Nat) :
    Nat × Nat × Nat :=
  let k := runLen (a.drop i) (b.drop j)
  if best.2.2 < k then (i, j, k) else best

/-- Embeds `SequenceMatcher.find_longest_match` on a junk-free `b` (queries
below the 200-character autojunk threshold), with the window `(alo, ahi,
blo, bhi)` re-indexed to the sublists themselves: the scan visits start
positions in increasing `i`, then `j`, keeps the first strictly longest run,
and so returns the longest matching block with the smallest `i`, then the
smallest `j` — exactly the Python loop's tie-breaking.  With no junk the
four extension `while` loops that follow the scan in the Python source
cannot fire (the scan already returns maximal runs). -/
def find_longest_match (a b : List Char) : Nat × Nat × Nat :=
  (List.range a.length).foldl
    (fun best i => (List.range b.length).foldl (flmStep a b i) best) (0, 0, 0)

/-- Embeds the total size `M` of `SequenceMatcher.get_matching_blocks`: the
recursion splits around the longest match, exactly as the Python queue does
(the queue's processing order only affects the order of the block list, not
the sum of the sizes).  `fuel` dominates the recursion depth: every
recursive call strictly shrinks `a`, so `a.length + b.length + 1` always
suffices (`matchTotal_fuel_irrelevant` below). -/
def matchTotal : Nat → List Char → List Char → Nat
  | 0, _, _ => 0
  | fuel + 1, a, b =>
    let r := find_longest_match a b
    if r.2.2 = 0 then 0
    else
      matchTotal fuel (a.take r.1) (b.take r.2.1) + r.2.2 +
        matchTotal fuel (a.drop (r.1 + r.2.2)) (b.drop (r.2.1 + r.2.2))

/-- An exact rational `num/den` (`den` positive) standing for the Python
float ratios `2.0*matches/length`: for the string lengths this code ever
compares, IEEE-754 doubles order these values exactly as the rationals do. -/
structure SimRatio where
  num : Nat
  den : Nat
deriving DecidableEq, Repr

/-- Embeds `difflib._calculate_ratio` with `m` the match count. -/
def calculateRatio (m length : Nat) : SimRatio :=
  if length ≠ 0 then ⟨2 * m, length⟩ else ⟨1, 1⟩

/-- `x ≤ y` on ratio values, by cross multiplication. -/
def SimRatio.le (x y : SimRatio) : Prop :=
  x.num * y.den ≤ y.num * x.den

instance : DecidableRel SimRatio.le := fun x y =>
  inferInstanceAs (Decidable (x.num * y.den ≤ y.num * x.den))

/-- `x < y` on ratio values, by cross multiplication. -/
def SimRatio.lt (x y : SimRatio) : Prop :=
  x.num * y.den < y.num * x.den

instance : DecidableRel SimRatio.lt := fun x y =>
  inferInstanceAs (Decidable (x.num * y.den < y.num * x.den))

/-- Value equality of ratios (`4/10` equals `2/5`), by cross
multiplication. -/
def SimRatio.eqv (x y : SimRatio) : Prop :=
  x.num * y.den = y.num * x.den

instance : ∀ x y : SimRatio, Decidable (x.eqv y) := fun x y =>
  inferInstanceAs (Decidable (x.num * y.den = y.num * x.den))

/-- The default `get_close_matches` cutoff `0.6`. -/
def cutoff : SimRatio := ⟨3, 5⟩

/-- Embeds `SequenceMatcher.ratio` (on junk-free input): twice the total
matching-block size over the total length. -/
def seqRatio (a b : List Char) : SimRatio :=
  calculateRatio (matchTotal (a.length + b.length + 1) a b) (a.length + b.length)

/-- Embeds the counting loop of `SequenceMatcher.quick_ratio`: a character
of `a` counts as a match while occurrences of it in `b` remain unused. -/
def quickMatches (b : List Char) (seen : Char → Nat) : List Char → Nat
  | [] => 0
  | c :: rest =>
    (if seen c < b.count c then 1 else 0) +
      quickMatches b (fun d => if d = c then seen c + 1 else seen d) rest

/-- Embeds `SequenceMatcher.quick_ratio`. -/
def quickRatio (a b : List Char) : SimRatio :=
  calculateRatio (quickMatches b (fun _ => 0) a) (a.length + b.length)

/-- Embeds `SequenceMatcher.real_quick_ratio`. -/
def realQuickRatio (a b : List Char) : SimRatio :=
  calculateRatio (min a.length b.length) (a.length + b.length)

/-- Python's `<` on strings: lexicographic comparison by code point. -/
def listLtChars : List Char → List Char → Bool
  | _, [] => false
  | [], _ :: _ => true
  | c :: cs, d :: ds =>
    if c.val < d.val then true else if c = d then listLtChars cs ds else false

/-- Python's `<` on the `(score, candidate)` pairs that
`heapq.nlargest` compares: lexicographic on the tuple. -/
def tupLt (x y : SimRatio × String) : Bool :=
  decide (x.1.lt y.1) || (decide (x.1.eqv y.1) && listLtChars x.2.data y.2.data)

/-- Stable insertion for the descending sort below: a pair travels past
exactly the earlier pairs that compare strictly smaller, so equal pairs keep
their first-seen order. -/
def insertTup (x : SimRatio × String) :
    List (SimRatio × String) → List (SimRatio × String)
  | [] => [x]
  | y :: ys => if tupLt y x then x :: y :: ys else y :: insertTup x ys

/-- The stable descending sort `sorted(result, reverse=True)` that
`heapq.nlargest` is documented to agree with. -/
def sortTupDesc (l : List (SimRatio × String)) : List (SimRatio × String) :=
  l.foldl (fun acc x => insertTup x acc) []

/-- Embeds `heapq.nlargest(n, result)`: the first `n` pairs of the stable
descending sort. -/
def nlargest (n : Nat) (l : List (SimRatio × String)) : List (SimRatio × String) :=
  (sortTupDesc l).take n

/-- Embeds the scoring loop of `difflib.get_close_matches`: every candidate
passing the three cascaded cutoff tests (each an upper bound of the next)
is paired with its ratio. -/
def scorePairs (word : String) (possibilities : List String) :
    List (SimRatio × String) :=
  possibilities.filterMap fun x =>
    if cutoff.le (realQuickRatio x.data word.data) ∧
        cutoff.le (quickRatio x.data word.data) ∧
        cutoff.le (seqRatio x.data word.data)
    then some (seqRatio x.data word.data, x) else none

/-- Embeds `difflib.get_close_matches(word, possibilities, n, cutoff=0.6)`
for `n ≥ 1` (Python raises `ValueError` on `n ≤ 0`) and junk-free `word`. -/
def get_close_matches (word : String) (possibilities : List String) (n : Nat) :
    List String :=
  (nlargest n (scorePairs word possibilities)).map Prod.snd

/-- A contact row, `MContact` (src/api/contacts/models.py is plumbing; the
spec's data model gives the fields, with the opaque unique id as `Nat`). -/
structure MContact where
  id : Nat
  name : String
  telegram : Option String := none
  phone : Option String := none
  birthday : Option String := none
deriving DecidableEq, Repr

/-- Embeds `DAOContact.search` (dao.py lines 51-58): lower-case every stored
name, take the close matches of the lower-cased query, and keep the stored
contacts whose lower-cased name occurs among them — in their original
`get_all` order. -/
def search (contacts : List MContact) (name : String) (name_count : Nat) :
    List MContact :=
  let names := contacts.map fun contact => strLower contact.name
  let close_names := get_close_matches (strLower name) names name_count
  contacts.filter fun contact => strLower contact.name ∈ close_names

/-- The error categories `DAOContact` surfaces (HTTP 409 and the base DAO's
404). -/
inductive StoreError
  | alreadyExists
  | notFound
deriving DecidableEq, Repr

instance {e a : Type} [DecidableEq e] [DecidableEq a] : DecidableEq (Except e a) :=
  fun x y =>
  match x, y with
  | .error u, .error v =>
    if h : u = v then .isTrue (congrArg Except.error h)
    else .isFalse fun hc => h (Except.error.inj hc)
  | .ok u, .ok v =>
    if h : u = v then .isTrue (congrArg Except.ok h)
    else .isFalse fun hc => h (Except.ok.inj hc)
  | .error _, .ok _ => .isFalse fun hc => Except.noConfusion hc
  | .ok _, .error _ => .isFalse fun hc => Except.noConfusion hc

/-- Modelled from the spec: the `SContactCreate` request schema
(src/api/contacts/schemas.py is not among the sources) — a mandatory `name`
plus optional fields, `none` meaning unset so that
`model_dump(exclude_unset=True)` omits it. -/
structure SContactCreate where
  name : String
  telegram : Option String := none
  phone : Option String := none
  birthday : Option String := none
deriving DecidableEq, Repr

/-- Modelled from the spec: the `SContactUpdate` partial-update schema
(schemas.py is not among the sources) — every field optional, `none` meaning
unset/excluded from `model_dump(exclude_unset=True)`, `some v` meaning the
caller supplied the value `v`. -/
structure SContactUpdate where
  name : Option String := none
  telegram : Option String := none
  phone : Option String := none
  birthday : Option String := none
deriving DecidableEq, Repr

/-- Modelled from the spec: the SQLAlchemy `AsyncSession` used by
`DAOContact` (src/database.py and src/api/dao_base.py are not among the
sources).  `base` is the committed table contents, `cur` the rows as seen
inside the running transaction. -/
structure Session where
  base : List MContact
  cur : List MContact
deriving DecidableEq, Repr

/-- Modelled from the spec: `session.add` stages a new row in the
transaction. -/
def dbAdd (s : Session) (m : MContact) : Session :=
  { s with cur := s.cur ++ [m] }

/-- Modelled from the spec: `session.rollback` discards the transaction's
writes, restoring the committed state. -/
def dbRollback (s : Session) : Session :=
  { s with cur := s.base }

/-- Modelled from the spec: `session.commit` makes the transaction's rows
the committed state. -/
def dbCommit (s : Session) : Session :=
  ⟨s.cur, s.cur⟩

/-- Modelled from the spec: `session.flush` succeeds exactly when the
`contacts.name UNIQUE` constraint (spec §6 persisted schema) holds of the
transaction's rows; otherwise it raises `IntegrityError`. -/
def flushOk (s : Session) : Prop :=
  (s.cur.map MContact.name).Nodup

instance (s : Session) : Decidable (flushOk s) :=
  inferInstanceAs (Decidable ((s.cur.map MContact.name).Nodup))

/-- `MContact(**s_contact_create.model_dump(exclude_unset=True))` with the
store-assigned fresh id (`uuid4` modelled as a caller-supplied `Nat`). -/
def contactOfCreate (newId : Nat) (s : SContactCreate) : MContact :=
  ⟨newId, s.name, s.telegram, s.phone, s.birthday⟩

/-- Embeds `DAOContact.create` (dao.py lines 21-31): stage the new row,
flush; on `IntegrityError` roll back and fail with 409, otherwise commit.
The returned session is the post-call state. -/
def create (sess : Session) (newId : Nat) (s : SContactCreate) :
    Session × Except StoreError MContact :=
  let m := contactOfCreate newId s
  let s1 := dbAdd sess m
  if flushOk s1 then (dbCommit s1, .ok m)
  else (dbRollback s1, .error .alreadyExists)

/-- The truthiness test `if update_contact.name:` combined with
`get_one_or_none_with_filter(name=...)` (dao.py lines 42-43): an unset or
empty name skips the check; otherwise any row carrying the name — the row
being updated included — counts as a collision. -/
def nameCollides (rows : List MContact) : Option String → Bool
  | none => false
  | some s => !(s == "") && rows.any fun c => c.name == s

/-- Modelled from the spec: the base DAO's `get_one_by_id` query (dao_base.py
is not among the sources) — the row with the given primary key. -/
def getOneById (rows : List MContact) (id : Nat) : Option MContact :=
  rows.find? fun c => c.id == id

/-- The `setattr` loop of `DAOContact.update` (dao.py lines 46-47): each
field supplied in the payload overwrites the row's field, unset fields are
untouched. -/
def applyUpdate (m : MContact) (u : SContactUpdate) : MContact :=
  { m with
    name := u.name.getD m.name
    telegram := match u.telegram with | some v => some v | none => m.telegram
    phone := match u.phone with | some v => some v | none => m.phone
    birthday := match u.birthday with | some v => some v | none => m.birthday }

/-- Embeds `DAOContact.update` (dao.py lines 41-49): the name-collision
check, the lookup by id (404 when absent), the `setattr` loop and the
commit.  Failures leave the session as it was (the method raises before
touching any row). -/
def update (sess : Session) (id : Nat) (u : SContactUpdate) :
    Session × Except StoreError MContact :=
  if nameCollides sess.cur u.name then (sess, .error .alreadyExists)
  else
    match getOneById sess.cur id with
    | none => (sess, .error .notFound)
    | some m =>
      let cur' := sess.cur.map fun c => if c.id = id then applyUpdate c u else c
      (dbCommit { sess with cur := cur' }, .ok (applyUpdate m u))

/-- The three activity tiers of `StatsHelper`. -/
inductive Tier
  | recent
  | average
  | long
deriving DecidableEq, Repr

/-- The header line each tier emits (`Types` inside `add_title`, helper.py
lines 330-333; note the source's `'*Long*:'` asterisk placement). -/
def headerOf : Tier → String
  | .recent => "*Recent:*"
  | .average => "*Average:*"
  | .long => "*Long*:"

/-- The tier a day count falls in, following `add_title`'s threshold chain:
`< 7` recent, `7 ≤ _ < 30` average, `≥ 30` long. -/
def tierOf (d : Int) : Tier :=
  if d < 7 then .recent else if d < 30 then .average else .long

/-- Embeds `add_title` (helper.py lines 329-344): recompute the set of lines
emitted so far and append a blank line plus the tier header unless the
header is already present. -/
def add_title (day_count : Int) (result : List String) : List String :=
  if day_count < 7 ∧ "*Recent:*" ∉ result then result ++ ["", "*Recent:*"]
  else if 7 ≤ day_count ∧ day_count < 30 ∧ "*Average:*" ∉ result then
    result ++ ["", "*Average:*"]
  else if 30 ≤ day_count ∧ "*Long*:" ∉ result then result ++ ["", "*Long*:"]
  else result

/-- The record line `f"— {day_count} days: {name} \({telegram}\)"` (helper.py
lines 361-362); the telegram handle comes from the external
`_get_telegram_by_name` collaborator, modelled as the function `tg`. -/
def recordLine (name : String) (day_count : Int) (tg : String → String) : String :=
  "— " ++ toString day_count ++ " days: " ++ escape_markdown_v2 name ++
    " \\(" ++ escape_markdown_v2 (tg name) ++ "\\)"

/-- One iteration of the emission loop (helper.py lines 358-362):
`add_title` then the record line. -/
def statsStep (tg : String → String) (result : List String) (p : String × Int) :
    List String :=
  add_title p.2 result ++ [recordLine p.1 p.2 tg]

/-- Embeds `contacts_with_days.sort(key=lambda x: x[1], reverse=True)`
(helper.py line 355): the stable descending sort by day count. -/
def daysSorted (records : List (String × Int)) : List (String × Int) :=
  List.insertionSort (fun a b => b.2 ≤ a.2) records

/-- The list of display lines built by
`get_days_count_since_last_interaction` (helper.py lines 355-364). -/
def statsLines (records : List (String × Int)) (tg : String → String) :
    List String :=
  (daysSorted records).foldl (statsStep tg) []

/-- Embeds `StatsHelper.get_days_count_since_last_interaction` (helper.py
lines 328-364) as a function of the fetched `(name, day_count)` records and
the external telegram lookup. -/
def get_days_count_since_last_interaction (records : List (String × Int))
    (tg : String → String) : String :=
  joinNL (statsLines records tg)

/-- Specification-shaped emission: a record's tier header (preceded by the
blank line) appears exactly in front of the first record of that tier,
`seen` carrying the tiers already encountered. -/
def specTierLines (tg : String → String) (seen : List Tier) :
    List (String × Int) → List String
  | [] => []
  | (name, d) :: rest =>
    (if tierOf d ∈ seen then [recordLine name d tg]
     else ["", headerOf (tierOf d), recordLine name d tg]) ++
      specTierLines tg (tierOf d :: seen) rest

/-- The alternative implementation the spec's open question describes: one
"header already emitted" boolean per tier, carried across the whole pass. -/
def flagLines (tg : String → String) (rDone aDone lDone : Bool) :
    List (String × Int) → List String
  | [] => []
  | (name, d) :: rest =>
    let hdr : List String :=
      if d < 7 ∧ rDone = false then ["", "*Recent:*"]
      else if 7 ≤ d ∧ d < 30 ∧ aDone = false then ["", "*Average:*"]
      else if 30 ≤ d ∧ lDone = false then ["", "*Long*:"]
      else []
    hdr ++ [recordLine name d tg] ++
      flagLines tg (rDone || decide (d < 7)) (aDone || decide (7 ≤ d ∧ d < 30))
        (lDone || decide (30 ≤ d)) rest

theorem windowLoop_fuel_irrelevant (lines : List String) (maxBytes : Nat) :
    ∀ (f g : Nat) (text : String) (p1 p2 : Int),
      (p2 - p1).toNat ≤ f → (p2 - p1).toNat ≤ g →
      windowLoop lines maxBytes f text p1 p2 = windowLoop lines maxBytes g text p1 p2 := by
  intro f
  induction f with
  | zero =>
    intro g text p1 p2 hf _
    have hnot : ¬ p1 < p2 := by omega
    cases g with
    | zero => rfl
    | succ g => simp [windowLoop, hnot]
  | succ f ih =>
    intro g text p1 p2 hf hg
    cases g with
    | zero =>
      have hnot : ¬ p1 < p2 := by omega
      simp [windowLoop, hnot]
    | succ g =>
      by_cases hlt : p1 < p2
      · have hm1 : p1 ≤ (p1 + p2) / 2 := by omega
        have hm2 : (p1 + p2) / 2 < p2 := by omega
        simp only [windowLoop, if_pos hlt]
        split
        · exact ih g _ _ _ (by omega) (by omega)
        · exact ih g _ _ _ (by omega) (by omega)
      · simp [windowLoop, hlt]

theorem windowLoop_shape (lines : List String) (maxBytes : Nat) :
    ∀ (f : Nat) (text : String) (p1 p2 : Int),
      (∃ m, text = joinNL (lines.drop m)) →
      ∃ m, windowLoop lines maxBytes f text p1 p2 = joinNL (lines.drop m) := by
  intro f
  induction f with
  | zero => intro text p1 p2 h; exact h
  | succ f ih =>
    intro text p1 p2 h
    by_cases hlt : p1 < p2
    · simp only [windowLoop, if_pos hlt]
      split
      · exact ih _ _ _ ⟨((p1 + p2) / 2).toNat, rfl⟩
      · exact ih _ _ _ ⟨((p1 + p2) / 2).toNat, rfl⟩
    · simpa [windowLoop, hlt] using h

theorem windowLoop_shape_lt (lines : List String) (maxBytes : Nat)
    (hne : lines ≠ []) :
    ∀ (f : Nat) (text : String) (p1 p2 : Int),
      p2 ≤ (lines.length : Int) - 1 →
      (∃ m, m < lines.length ∧ text = joinNL (lines.drop m)) →
      ∃ m, m < lines.length ∧
        windowLoop lines maxBytes f text p1 p2 = joinNL (lines.drop m) := by
  have hlen : 0 < lines.length := List.length_pos.2 hne
  intro f
  induction f with
  | zero => intro text p1 p2 _ h; exact h
  | succ f ih =>
    intro text p1 p2 hp2 h
    by_cases hlt : p1 < p2
    · have hm : ((p1 + p2) / 2).toNat < lines.length := by omega
      simp only [windowLoop, if_pos hlt]
      split
      · exact ih _ _ _ hp2 ⟨((p1 + p2) / 2).toNat, hm, rfl⟩
      · exact ih _ _ _ (by omega) ⟨((p1 + p2) / 2).toNat, hm, rfl⟩
    · simpa [windowLoop, hlt] using h

theorem windowLines_shape (lines : List String) (maxBytes : Nat) :
    ∃ m, windowLines lines maxBytes = stripLeadingNewline (joinNL (lines.drop m)) := by
  obtain ⟨m, hm⟩ := windowLoop_shape lines maxBytes lines.length (joinNL lines) 0
    ((lines.length : Int) - 1) ⟨0, by simp⟩
  exact ⟨m, by simp [windowLines, hm]⟩

theorem windowLines_shape_lt (lines : List String) (maxBytes : Nat)
    (hne : lines ≠ []) :
    ∃ m, m < lines.length ∧
      windowLines lines maxBytes = stripLeadingNewline (joinNL (lines.drop m)) := by
  have hlen : 0 < lines.length := List.length_pos.2 hne
  obtain ⟨m, hm, heq⟩ := windowLoop_shape_lt lines maxBytes hne lines.length
    (joinNL lines) 0 ((lines.length : Int) - 1) (by omega) ⟨0, hlen, by simp⟩
  exact ⟨m, hm, by simp [windowLines, heq]⟩

/-- C6: the windowing function is total — for every line list and budget it
returns (the leading-newline strip of) the newline-join of some suffix, and
on the empty sequence it returns the empty string; the spoiler
("reveal on demand") marker is applied by `convert_logs_to_str` after the
windowing component, not inside it. -/
theorem windower_total_and_empty :
    (∀ maxBytes, windowLines [] maxBytes = "") ∧
    (∀ lines maxBytes, ∃ m,
        windowLines lines maxBytes = stripLeadingNewline (joinNL (lines.drop m))) ∧
    (∀ logs, convert_logs_to_str logs
        = create_spoiler (windowLines (renderLogs logs) 4000)) :=
  ⟨fun _ => rfl, windowLines_shape, fun _ => rfl⟩

set_option maxRecDepth 100000 in
/-- C1: the claimed minimal-fitting-suffix contract fails on the spec's own
§8 test (100 lines of ten `a`s, budget 50): the suffix starting at 96 fits
the budget (43 ≤ 50), yet the code returns the join from 95 — length 54 —
because the loop's last probe rejected and `text` is never recomputed after
the loop. -/
theorem windower_returns_over_budget_text :
    50 < (windowLines (List.replicate 100 "aaaaaaaaaa") 50).length ∧
    (joinNL ((List.replicate 100 "aaaaaaaaaa").drop 96)).length ≤ 50 ∧
    windowLines (List.replicate 100 "aaaaaaaaaa") 50
      = joinNL ((List.replicate 100 "aaaaaaaaaa").drop 95) := by decide

theorem renderLogs_ne_nil (logs : List LogDay) (h : logs ≠ []) :
    renderLogs logs ≠ [] := by
  obtain ⟨d, rest, rfl⟩ := List.exists_cons_of_ne_nil h
  simp [renderLogs]

theorem renderLogs_head_shape (logs : List LogDay) :
    ∀ x ∈ renderLogs logs, (∃ t, x = "\n*" ++ t) ∨ (∃ t, x = "— " ++ t) := by
  intro x hx
  unfold renderLogs at hx
  rw [List.mem_flatten] at hx
  obtain ⟨blk, hblk, hxblk⟩ := hx
  rw [List.mem_map] at hblk
  obtain ⟨d, -, rfl⟩ := hblk
  rcases List.mem_cons.1 hxblk with rfl | hx2
  · exact .inl ⟨escape_markdown_v2 d.date ++ ":*", by rw [String.append_assoc]⟩
  · rw [List.mem_map] at hx2
    obtain ⟨lg, -, rfl⟩ := hx2
    exact .inr ⟨toString lg.number ++ (": " ++ escape_markdown_v2 lg.log), by
      rw [String.append_assoc, String.append_assoc]⟩

theorem joinNL_cons_data (x : String) (xs : List String) :
    ∃ tail, (joinNL (x :: xs)).data = x.data ++ tail := by
  cases xs with
  | nil => exact ⟨[], by simp [joinNL]⟩
  | cons y ys =>
    exact ⟨"\n".data ++ (joinNL (y :: ys)).data, by
      simp [joinNL, String.data_append, List.append_assoc]⟩

theorem stripLeadingNewline_of_head_ne (s : String) (c : Char) (l : List Char)
    (h : s.data = c :: l) (hc : c ≠ '\n') : stripLeadingNewline s = s := by
  unfold stripLeadingNewline
  split
  · next rest heq => rw [h] at heq; cases heq; exact absurd rfl hc
  · rfl

theorem stripped_join_ne_empty (x : String) (xs : List String)
    (hx : (∃ t, x = "\n*" ++ t) ∨ (∃ t, x = "— " ++ t)) :
    stripLeadingNewline (joinNL (x :: xs)) ≠ "" := by
  obtain ⟨tail, htail⟩ := joinNL_cons_data x xs
  rcases hx with ⟨t, rfl⟩ | ⟨t, rfl⟩
  · have h2 : (joinNL (("\n*" ++ t) :: xs)).data = '\n' :: '*' :: (t.data ++ tail) :=
      htail.trans (by rw [show ("\n*" ++ t).data = '\n' :: '*' :: t.data from rfl,
        List.cons_append, List.cons_append])
    have h3 : joinNL (("\n*" ++ t) :: xs) = String.mk ('\n' :: '*' :: (t.data ++ tail)) :=
      String.ext h2
    rw [h3]
    intro hcon
    have := congrArg String.data hcon
    simp [stripLeadingNewline] at this
  · have h2 : (joinNL (("— " ++ t) :: xs)).data = '—' :: ' ' :: (t.data ++ tail) :=
      htail.trans (by rw [show ("— " ++ t).data = '—' :: ' ' :: t.data from rfl,
        List.cons_append, List.cons_append])
    rw [stripLeadingNewline_of_head_ne _ _ _ h2 (by decide)]
    intro hcon
    have := congrArg String.data hcon
    rw [h2] at this
    simp at this

theorem text_is_empty_spoiler_false (w : String) (h : w ≠ "") :
    text_is_empty (create_spoiler w) = false := by
  have hwpos : 0 < w.length := by
    rcases Nat.eq_zero_or_pos w.length with h0 | h0
    · exact absurd (String.ext (List.length_eq_zero.1 h0)) h
    · exact h0
  have hlen : (create_spoiler w).length = w.length + 4 := by
    have hbar : ("||" : String).length = 2 := rfl
    simp [create_spoiler, String.length_append, hbar]
    omega
  have h1 : ¬ create_spoiler w = "" := by
    intro hc; have := congrArg String.length hc; rw [hlen] at this; simp at this
  have h2 : ¬ create_spoiler w = "||||" := by
    intro hc; have := congrArg String.length hc; rw [hlen] at this
    have : w.length + 4 = 4 := this
    omega
  have h3 : (create_spoiler w).isEmpty = false := by
    rw [Bool.eq_false_iff]
    intro hc
    exact h1 ((String.isEmpty_iff _).1 hc)
  simp [text_is_empty, h1, h2, h3]

/-- C10: converting the empty log sequence yields exactly the four-character
string `"||||"` (the spoiler wrapper around the empty windowed text),
`text_is_empty` accepts that output, and on every non-empty log sequence the
conversion's output is rejected by `text_is_empty` — the emptiness check
recognizes precisely the conversion's empty-input result. -/
theorem convert_empty_roundtrip :
    convert_logs_to_str [] = "||||" ∧
    text_is_empty (convert_logs_to_str []) = true ∧
    ∀ logs, logs ≠ [] → text_is_empty (convert_logs_to_str logs) = false := by
  refine ⟨rfl, rfl, ?_⟩
  intro logs hne
  have hrl : renderLogs logs ≠ [] := renderLogs_ne_nil logs hne
  obtain ⟨m, hm, heq⟩ := windowLines_shape_lt (renderLogs logs) 4000 hrl
  have hdrop : (renderLogs logs).drop m ≠ [] := by
    intro hd; rw [List.drop_eq_nil_iff] at hd; omega
  obtain ⟨x, xs, hx⟩ := List.exists_cons_of_ne_nil hdrop
  have hxmem : x ∈ renderLogs logs :=
    List.mem_of_mem_drop (hx ▸ List.mem_cons_self x xs)
  have hne2 : windowLines (renderLogs logs) 4000 ≠ "" := by
    rw [heq, hx]
    exact stripped_join_ne_empty x xs (renderLogs_head_shape logs x hxmem)
  exact text_is_empty_spoiler_false _ hne2

theorem convert_empty_roundtrip_witness :
    text_is_empty (convert_logs_to_str [⟨"2024-01-01", [⟨1, "hi"⟩]⟩]) = false :=
  convert_empty_roundtrip.2.2 [⟨"2024-01-01", [⟨1, "hi"⟩]⟩] (by decide)

theorem runLen_le_left : ∀ a b : List Char, runLen a b ≤ a.length := by
  intro a
  induction a with
  | nil => intro b; cases b <;> simp [runLen]
  | cons x xs ih =>
    intro b
    cases b with
    | nil => simp [runLen]
    | cons y ys =>
      by_cases hxy : x = y
      · simpa [runLen, hxy] using ih ys
      · simp [runLen, hxy]

theorem runLen_self : ∀ a : List Char, runLen a a = a.length := by
  intro a
  induction a with
  | nil => rfl
  | cons x xs ih => simp [runLen, ih]

theorem runLen_le_right : ∀ a b : List Char, runLen a b ≤ b.length := by
  intro a
  induction a with
  | nil => intro b; cases b <;> simp [runLen]
  | cons x xs ih =>
    intro b
    cases b with
    | nil => simp [runLen]
    | cons y ys =>
      by_cases hxy : x = y
      · simpa [runLen, hxy] using ih ys
      · simp [runLen, hxy]

theorem foldl_preserves {α β : Type} (f : β → α → β) (P : β → Prop) :
    ∀ (l : List α) (b : β), P b → (∀ b' x, x ∈ l → P b' → P (f b' x)) →
      P (l.foldl f b) := by
  intro l
  induction l with
  | nil => intro b hb _; exact hb
  | cons x xs ih =>
    intro b hb hstep
    exact ih (f b x) (hstep b x (List.mem_cons_self x xs) hb)
      fun b' y hy => hstep b' y (List.mem_cons_of_mem x hy)

theorem flm_bounds (a b : List Char) :
    (find_longest_match a b).1 + (find_longest_match a b).2.2 ≤ a.length ∧
    (find_longest_match a b).2.1 + (find_longest_match a b).2.2 ≤ b.length := by
  unfold find_longest_match
  apply foldl_preserves _
    (fun best : Nat × Nat × Nat =>
      best.1 + best.2.2 ≤ a.length ∧ best.2.1 + best.2.2 ≤ b.length)
  · exact ⟨Nat.zero_le _, Nat.zero_le _⟩
  intro best i hi hbest
  apply foldl_preserves _
    (fun best : Nat × Nat × Nat =>
      best.1 + best.2.2 ≤ a.length ∧ best.2.1 + best.2.2 ≤ b.length)
  · exact hbest
  intro best' j hj hbest'
  simp only [flmStep]
  split
  · have hk1 := runLen_le_left (a.drop i) (b.drop j)
    have hk2 := runLen_le_right (a.drop i) (b.drop j)
    rw [List.length_drop] at hk1
    rw [List.length_drop] at hk2
    have hi' : i < a.length := List.mem_range.1 hi
    have hj' : j < b.length := List.mem_range.1 hj
    refine ⟨?_, ?_⟩
    · show i + runLen (a.drop i) (b.drop j) ≤ a.length
      omega
    · show j + runLen (a.drop i) (b.drop j) ≤ b.length
      omega
  · exact hbest'

theorem matchTotal_fuel_irrelevant :
    ∀ (f g : Nat) (a b : List Char), a.length < f → a.length < g →
      matchTotal f a b = matchTotal g a b := by
  intro f
  induction f with
  | zero => intro g a b hf; omega
  | succ f ih =>
    intro g a b hf hg
    cases g with
    | zero => omega
    | succ g =>
      show matchTotal (f + 1) a b = matchTotal (g + 1) a b
      rw [matchTotal, matchTotal]
      have hb := flm_bounds a b
      split
      · rfl
      · next hk =>
        have hk1 : 1 ≤ (find_longest_match a b).2.2 := Nat.one_le_iff_ne_zero.2 hk
        have ht : (a.take (find_longest_match a b).1).length < a.length := by
          simp only [List.length_take]
          omega
        have hd : (a.drop ((find_longest_match a b).1 + (find_longest_match a b).2.2)).length
            < a.length := by
          simp only [List.length_drop]
          omega
        rw [ih g _ _ (by omega) (by omega), ih g _ _ (by omega) (by omega)]

theorem flm_fold_inner_const (a b : List Char) (i : Nat) :
    ∀ (js : List Nat) (best : Nat × Nat × Nat),
      (∀ j ∈ js, runLen (a.drop i) (b.drop j) ≤ best.2.2) →
      js.foldl (flmStep a b i) best = best := by
  intro js
  induction js with
  | nil => intro best _; rfl
  | cons j js ih =>
    intro best h
    have hj := h j (List.mem_cons_self j js)
    rw [List.foldl_cons]
    have hstep : flmStep a b i best j = best := by
      unfold flmStep
      rw [if_neg (by omega)]
    rw [hstep]
    exact ih best fun j' hj' => h j' (List.mem_cons_of_mem j hj')

theorem flm_fold_outer_const (a b : List Char) (js : List Nat) :
    ∀ (is' : List Nat) (best : Nat × Nat × Nat),
      (∀ i' j, runLen (a.drop i') (b.drop j) ≤ best.2.2) →
      is'.foldl (fun best i => js.foldl (flmStep a b i) best) best = best := by
  intro is'
  induction is' with
  | nil => intro best _; rfl
  | cons i is' ih =>
    intro best h
    rw [List.foldl_cons, flm_fold_inner_const a b i js best fun j _ => h i j]
    exact ih best h

theorem find_longest_match_self (a : List Char) (h : a ≠ []) :
    find_longest_match a a = (0, 0, a.length) := by
  obtain ⟨c, cs, rfl⟩ := List.exists_cons_of_ne_nil h
  unfold find_longest_match
  conv_lhs => rw [List.length_cons, List.range_succ_eq_map, List.foldl_cons]
  rw [List.foldl_cons]
  have hstep : flmStep (c :: cs) (c :: cs) 0 (0, 0, 0) 0 = (0, 0, cs.length + 1) := by
    unfold flmStep
    simp [runLen_self]
  rw [hstep]
  have hbound : ∀ i' j, runLen ((c :: cs).drop i') ((c :: cs).drop j)
      ≤ (0, 0, cs.length + 1).2.2 := by
    intro i' j
    calc runLen ((c :: cs).drop i') ((c :: cs).drop j)
        ≤ ((c :: cs).drop i').length := runLen_le_left _ _
      _ ≤ (c :: cs).length := by simp
      _ = cs.length + 1 := by simp
  rw [flm_fold_inner_const _ _ _ _ _ fun j _ => hbound 0 j]
  rw [flm_fold_outer_const _ _ _ _ _ fun i' j => hbound i' j]
  rfl

theorem matchTotal_nil_left : ∀ (f : Nat) (b : List Char), matchTotal f [] b = 0 := by
  intro f b
  cases f with
  | zero => rfl
  | succ f => rfl

theorem matchTotal_self (a : List Char) :
    matchTotal (a.length + a.length + 1) a a = a.length := by
  cases a with
  | nil => rfl
  | cons c cs =>
    have hne : (c :: cs) ≠ [] := by simp
    rw [show (c :: cs).length + (c :: cs).length + 1
      = ((c :: cs).length + (c :: cs).length) + 1 from rfl]
    rw [matchTotal, find_longest_match_self _ hne]
    rw [if_neg (by simp)]
    simp only [List.take_zero, Nat.zero_add, List.drop_length, matchTotal_nil_left,
      Nat.add_zero]

theorem cutoff_le_self_ratio (n : Nat) : cutoff.le (calculateRatio n (n + n)) := by
  unfold calculateRatio SimRatio.le cutoff
  split
  · show (3 : Nat) * (n + n) ≤ 2 * n * 5
    omega
  · show (3 : Nat) * 1 ≤ 1 * 5
    omega

theorem quickMatches_full (b : List Char) :
    ∀ (l : List Char) (seen : Char → Nat),
      (∀ c, seen c + l.count c ≤ b.count c) →
      quickMatches b seen l = l.length := by
  intro l
  induction l with
  | nil => intro seen _; rfl
  | cons c rest ih =>
    intro seen h
    have hc : seen c < b.count c := by
      have := h c
      rw [List.count_cons_self] at this
      omega
    unfold quickMatches
    rw [if_pos hc]
    rw [ih _ ?_]
    · simp only [List.length_cons]
      omega
    · intro d
      by_cases hdc : d = c
      · subst hdc
        have hd := h d
        rw [List.count_cons_self] at hd
        rw [if_pos rfl]
        omega
      · have hd := h d
        rw [List.count_cons_of_ne hdc] at hd
        rw [if_neg hdc]
        omega

theorem seqRatio_self_cutoff (a : List Char) : cutoff.le (seqRatio a a) := by
  unfold seqRatio
  rw [matchTotal_self]
  exact cutoff_le_self_ratio a.length

theorem quickRatio_self_cutoff (a : List Char) : cutoff.le (quickRatio a a) := by
  unfold quickRatio
  rw [quickMatches_full a a (fun _ => 0) (by intro c; simp)]
  exact cutoff_le_self_ratio a.length

theorem realQuickRatio_self_cutoff (a : List Char) : cutoff.le (realQuickRatio a a) := by
  unfold realQuickRatio
  rw [Nat.min_self]
  exact cutoff_le_self_ratio a.length

theorem insertTup_perm (x : SimRatio × String) :
    ∀ l, (insertTup x l).Perm (x :: l) := by
  intro l
  induction l with
  | nil => exact List.Perm.refl _
  | cons y ys ih =>
    unfold insertTup
    split
    · exact List.Perm.refl _
    · exact (List.Perm.cons y ih).trans (List.Perm.swap x y ys)

theorem sortTupDesc_perm (l : List (SimRatio × String)) : (sortTupDesc l).Perm l := by
  suffices h : ∀ (l acc : List (SimRatio × String)),
      (l.foldl (fun acc x => insertTup x acc) acc).Perm (l ++ acc) by
    simpa using h l []
  intro l
  induction l with
  | nil => intro acc; exact List.Perm.refl _
  | cons x xs ih =>
    intro acc
    rw [List.foldl_cons]
    refine ((ih (insertTup x acc)).trans ?_)
    refine (List.Perm.append_left xs (insertTup_perm x acc)).trans ?_
    exact List.perm_middle

theorem mem_scorePairs (word : String) (ps : List String) (p : SimRatio × String)
    (h : p ∈ scorePairs word ps) :
    p.2 ∈ ps ∧ p.1 = seqRatio p.2.data word.data ∧
      cutoff.le (seqRatio p.2.data word.data) := by
  unfold scorePairs at h
  rw [List.mem_filterMap] at h
  obtain ⟨x, hx, hfx⟩ := h
  split_ifs at hfx with htest
  obtain rfl : (seqRatio x.data word.data, x) = p := Option.some.inj hfx
  exact ⟨hx, rfl, htest.2.2⟩

theorem mem_close_matches (word : String) (ps : List String) (n : Nat) (s : String)
    (h : s ∈ get_close_matches word ps n) :
    ∃ p ∈ scorePairs word ps, p.2 = s := by
  unfold get_close_matches nlargest at h
  rw [List.mem_map] at h
  obtain ⟨p, hp, rfl⟩ := h
  exact ⟨p, (sortTupDesc_perm _).subset (List.take_subset _ _ hp), rfl⟩

/-- C2 counterexample: on the store `["ab", "abc"]` and query `"abc"`, the
search returns `["ab", "abc"]` — ascending similarity (`4/5 < 1`), not the
claimed descending-similarity order. -/
theorem search_not_similarity_sorted :
    search [⟨0, "ab", none, none, none⟩, ⟨1, "abc", none, none, none⟩] "abc" 3
      = [⟨0, "ab", none, none, none⟩, ⟨1, "abc", none, none, none⟩] ∧
    (seqRatio (strLower "ab").data (strLower "abc").data).lt
      (seqRatio (strLower "abc").data (strLower "abc").data) := by decide

/-- C2 amended: the fuzzy resolver keeps the retained candidates in their
original candidate order (the result is a sublist of the store's contact
list); similarity — computed case-insensitively — decides only *which*
lower-cased names are retained, via membership in `get_close_matches`, not
the output order. -/
theorem search_returns_original_order (contacts : List MContact) (q : String) (n : Nat) :
    (search contacts q n).Sublist contacts ∧
    ∀ c, c ∈ search contacts q n ↔
      c ∈ contacts ∧ strLower c.name ∈
        get_close_matches (strLower q) (contacts.map fun k => strLower k.name) n := by
  constructor
  · exact List.filter_sublist _
  · intro c
    unfold search
    rw [List.mem_filter]
    simp only [decide_eq_true_eq]

/-- C7 counterexample: with limit 1 and the two stored contacts `"AA"` and
`"aa"` (distinct case-sensitive names, equal lower-casings), the query
`"aa"` returns both contacts — more than `limit` results. -/
theorem search_limit_exceeded :
    search [⟨0, "AA", none, none, none⟩, ⟨1, "aa", none, none, none⟩] "aa" 1
      = [⟨0, "AA", none, none, none⟩, ⟨1, "aa", none, none, none⟩] := by decide

theorem get_close_matches_self (w : String) : get_close_matches w [w] 3 = [w] := by
  have hc3 : cutoff.le (realQuickRatio w.data w.data) ∧
      cutoff.le (quickRatio w.data w.data) ∧ cutoff.le (seqRatio w.data w.data) :=
    ⟨realQuickRatio_self_cutoff _, quickRatio_self_cutoff _, seqRatio_self_cutoff _⟩
  have hsp : scorePairs w [w] = [(seqRatio w.data w.data, w)] := by
    simp [scorePairs, hc3.1, hc3.2.1, hc3.2.2]
  unfold get_close_matches
  rw [hsp]
  rfl

theorem search_self (c : MContact) : search [c] c.name 3 = [c] := by
  simp only [search, List.map_cons, List.map_nil]
  simp [get_close_matches_self]

/-- C7 amended: for queries below `SequenceMatcher`'s 200-character autojunk
threshold, resolving a contact's exact name against the singleton store
containing it returns that contact; every returned contact comes from the
store and its lower-cased name clears the 0.6 similarity cutoff against the
lower-cased query; and the result respects the limit `n` provided the
stored names have pairwise-distinct lower-casings (contacts whose names
differ only by case can share one retained lower-cased name, which is how
the original at-most-`n` claim fails). -/
theorem search_contract :
    (∀ c : MContact, (strLower c.name).length < 200 → search [c] c.name 3 = [c]) ∧
    (∀ (contacts : List MContact) (q : String) (n : Nat) (c : MContact),
        c ∈ search contacts q n →
        c ∈ contacts ∧ cutoff.le (seqRatio (strLower c.name).data (strLower q).data)) ∧
    (∀ (contacts : List MContact) (q : String) (n : Nat),
        (contacts.map fun c => strLower c.name).Nodup →
        (search contacts q n).length ≤ n) := by
  refine ⟨fun c _ => search_self c, ?_, ?_⟩
  · intro contacts q n c hc
    unfold search at hc
    rw [List.mem_filter] at hc
    obtain ⟨hmem, hdec⟩ := hc
    replace hdec := of_decide_eq_true hdec
    obtain ⟨p, hp, hps⟩ := mem_close_matches _ _ _ _ hdec
    obtain ⟨-, -, hcut⟩ := mem_scorePairs _ _ _ hp
    rw [hps] at hcut
    exact ⟨hmem, hcut⟩
  · intro contacts q n hnd
    have hsub : (search contacts q n).Sublist contacts := List.filter_sublist _
    have h1 : ((search contacts q n).map fun c => strLower c.name).Nodup :=
      hnd.sublist (hsub.map _)
    have h2 : ((search contacts q n).map fun c => strLower c.name) ⊆
        get_close_matches (strLower q) (contacts.map fun k => strLower k.name) n := by
      intro s hs
      rw [List.mem_map] at hs
      obtain ⟨c, hc, rfl⟩ := hs
      unfold search at hc
      rw [List.mem_filter] at hc
      exact of_decide_eq_true hc.2
    have h3 := (List.subperm_of_subset h1 h2).length_le
    have h4 : (get_close_matches (strLower q)
        (contacts.map fun k => strLower k.name) n).length ≤ n := by
      unfold get_close_matches nlargest
      rw [List.length_map]
      exact (List.length_take_le _ _)
    calc (search contacts q n).length
        = ((search contacts q n).map fun c => strLower c.name).length :=
          (List.length_map _ _).symm
      _ ≤ _ := h3
      _ ≤ n := h4

theorem search_contract_witness :
    search [⟨7, "Bob", none, none, none⟩] "Bob" 3 = [⟨7, "Bob", none, none, none⟩] ∧
    (⟨1, "abc", none, none, none⟩ ∈
        ([⟨0, "ab", none, none, none⟩, ⟨1, "abc", none, none, none⟩] : List MContact) ∧
      cutoff.le (seqRatio (strLower "abc").data (strLower "abc").data)) ∧
    (search [⟨0, "ab", none, none, none⟩, ⟨1, "cd", none, none, none⟩] "ab" 1).length ≤ 1 :=
  ⟨search_contract.1 ⟨7, "Bob", none, none, none⟩ (by decide),
   search_contract.2.1 [⟨0, "ab", none, none, none⟩, ⟨1, "abc", none, none, none⟩]
     "abc" 3 ⟨1, "abc", none, none, none⟩ (by decide),
   search_contract.2.2 [⟨0, "ab", none, none, none⟩, ⟨1, "cd", none, none, none⟩]
     "ab" 1 (by decide)⟩

/-- C4: from a clean session whose committed rows carry pairwise-distinct
names, `create` with a colliding name fails with `AlreadyExists` and the
rolled-back session equals the pre-call session (no partial record); with a
fresh name it succeeds, appends exactly the one new contact, commits, and
preserves the name-uniqueness invariant. -/
theorem create_unique_atomic (sess : Session) (newId : Nat) (s : SContactCreate)
    (hclean : sess.cur = sess.base)
    (hnd : (sess.base.map MContact.name).Nodup) :
    (s.name ∈ sess.base.map MContact.name →
      create sess newId s = (sess, Except.error StoreError.alreadyExists)) ∧
    (s.name ∉ sess.base.map MContact.name →
      create sess newId s =
        (⟨sess.base ++ [contactOfCreate newId s],
          sess.base ++ [contactOfCreate newId s]⟩,
          Except.ok (contactOfCreate newId s)) ∧
      ((sess.base ++ [contactOfCreate newId s]).map MContact.name).Nodup) := by
  obtain ⟨bs, cs⟩ := sess
  simp only at hclean hnd ⊢
  subst hclean
  constructor
  · intro hmem
    have hflush : ¬ flushOk (dbAdd ⟨cs, cs⟩ (contactOfCreate newId s)) := by
      unfold flushOk dbAdd
      simp only [List.map_append]
      rw [List.nodup_append]
      rintro ⟨-, -, hdisj⟩
      exact hdisj hmem (by simp [contactOfCreate])
    unfold create
    rw [if_neg hflush]
    rfl
  · intro hmem
    have hflush : flushOk (dbAdd ⟨cs, cs⟩ (contactOfCreate newId s)) := by
      unfold flushOk dbAdd
      simp only [List.map_append]
      rw [List.nodup_append]
      refine ⟨hnd, List.nodup_singleton _, ?_⟩
      intro a ha ha2
      simp only [contactOfCreate, List.map_cons, List.map_nil,
        List.mem_singleton] at ha2
      subst ha2
      exact hmem ha
    unfold create
    rw [if_pos hflush]
    refine ⟨rfl, ?_⟩
    simp only [List.map_append]
    rw [List.nodup_append]
    refine ⟨hnd, List.nodup_singleton _, ?_⟩
    intro a ha ha2
    simp only [contactOfCreate, List.map_cons, List.map_nil,
      List.mem_singleton] at ha2
    subst ha2
    exact hmem ha

theorem create_unique_atomic_witness :
    create ⟨[⟨0, "A", none, none, none⟩], [⟨0, "A", none, none, none⟩]⟩ 1
        ⟨"A", none, none, none⟩
      = (⟨[⟨0, "A", none, none, none⟩], [⟨0, "A", none, none, none⟩]⟩,
          Except.error StoreError.alreadyExists) :=
  (create_unique_atomic ⟨[⟨0, "A", none, none, none⟩], [⟨0, "A", none, none, none⟩]⟩
    1 ⟨"A", none, none, none⟩ rfl (by decide)).1 (by decide)

/-- C3 counterexample: a store holding the single contact `(id 0, "A")` —
so the only contact carrying the name `"A"` is the one being updated —
still gets `AlreadyExists` when contact 0 re-supplies its own name,
refuting "updating a contact while re-supplying its own current name
succeeds". -/
theorem update_own_name_rejected :
    (update ⟨[⟨0, "A", none, none, none⟩], [⟨0, "A", none, none, none⟩]⟩ 0
        ⟨some "A", none, none, none⟩).2 = Except.error StoreError.alreadyExists ∧
    ∀ c ∈ ([⟨0, "A", none, none, none⟩] : List MContact), c.name = "A" → c.id = 0 := by
  decide

/-- C3 amended: `update` fails with `AlreadyExists` exactly when the payload
supplies a non-empty name that some stored contact — including the contact
being updated itself — already carries; the check does not exclude the
updated row. -/
theorem update_name_collision_iff (sess : Session) (id : Nat) (u : SContactUpdate) :
    (update sess id u).2 = Except.error StoreError.alreadyExists ↔
      ∃ s, u.name = some s ∧ s ≠ "" ∧ ∃ c ∈ sess.cur, c.name = s := by
  unfold update
  cases hcol : nameCollides sess.cur u.name with
  | true =>
    rw [if_pos rfl]
    constructor
    · intro _
      unfold nameCollides at hcol
      cases hn : u.name with
      | none => rw [hn] at hcol; exact absurd hcol (by simp)
      | some s =>
        rw [hn] at hcol
        rw [Bool.and_eq_true, Bool.not_eq_true'] at hcol
        obtain ⟨hs, hany⟩ := hcol
        rw [List.any_eq_true] at hany
        obtain ⟨c, hc, hcn⟩ := hany
        exact ⟨s, rfl, by simpa using hs, c, hc, by simpa using hcn⟩
    · intro _
      rfl
  | false =>
    rw [if_neg (by simp)]
    constructor
    · intro h
      exfalso
      cases hg : getOneById sess.cur id with
      | none => rw [hg] at h; simp at h
      | some m => rw [hg] at h; simp at h
    · rintro ⟨s, hn, hs, c, hc, hcn⟩
      exfalso
      have h1 : (s == "") = false := beq_eq_false_iff_ne.2 hs
      have h2 : sess.cur.any (fun c => c.name == s) = true :=
        List.any_eq_true.2 ⟨c, hc, by simp [hcn]⟩
      have hcol2 : nameCollides sess.cur u.name = true := by
        rw [hn]
        show (!(s == "") && sess.cur.any fun c => c.name == s) = true
        rw [h1, h2]
        rfl
      simp [hcol2] at hcol

/-- C8: a successful `update` applies exactly the supplied payload fields to
the row with the given id — every field absent from the payload keeps its
prior value — leaves every other row untouched, and commits the result. -/
theorem update_partial_frame (sess : Session) (id : Nat) (u : SContactUpdate)
    (sess' : Session) (m' : MContact)
    (h : update sess id u = (sess', Except.ok m')) :
    ∃ m, getOneById sess.cur id = some m ∧
      m'.id = m.id ∧
      (u.name = none → m'.name = m.name) ∧
      (∀ v, u.name = some v → m'.name = v) ∧
      (u.telegram = none → m'.telegram = m.telegram) ∧
      (∀ v, u.telegram = some v → m'.telegram = some v) ∧
      (u.phone = none → m'.phone = m.phone) ∧
      (∀ v, u.phone = some v → m'.phone = some v) ∧
      (u.birthday = none → m'.birthday = m.birthday) ∧
      (∀ v, u.birthday = some v → m'.birthday = some v) ∧
      sess'.base = sess'.cur ∧
      sess'.cur = sess.cur.map (fun c => if c.id = id then applyUpdate c u else c) ∧
      (∀ c ∈ sess.cur, c.id ≠ id → c ∈ sess'.cur) := by
  unfold update at h
  split_ifs at h with hcol
  · exact absurd (congrArg Prod.snd h) (by simp)
  · cases hg : getOneById sess.cur id with
    | none => rw [hg] at h; exact absurd (congrArg Prod.snd h) (by simp)
    | some m =>
      rw [hg] at h
      have h1 : dbCommit { sess with
          cur := sess.cur.map fun c => if c.id = id then applyUpdate c u else c }
          = sess' := congrArg Prod.fst h
      have h2 : applyUpdate m u = m' := Except.ok.inj (congrArg Prod.snd h)
      subst h2
      subst h1
      refine ⟨m, rfl, rfl, ?_, ?_, ?_, ?_, ?_, ?_, ?_, ?_, rfl, rfl, ?_⟩
      · intro hv; simp [applyUpdate, hv]
      · intro v hv; simp [applyUpdate, hv]
      · intro hv; simp [applyUpdate, hv]
      · intro v hv; simp [applyUpdate, hv]
      · intro hv; simp [applyUpdate, hv]
      · intro v hv; simp [applyUpdate, hv]
      · intro hv; simp [applyUpdate, hv]
      · intro v hv; simp [applyUpdate, hv]
      · intro c hc hcid
        have : c ∈ sess.cur.map fun k => if k.id = id then applyUpdate k u else k :=
          List.mem_map.2 ⟨c, hc, by rw [if_neg hcid]⟩
        exact this

theorem update_partial_frame_witness :
    ∃ m, getOneById [⟨0, "A", none, none, none⟩] 0 = some m ∧
      (⟨0, "A", some "t", none, none⟩ : MContact).id = m.id ∧
      ((none : Option String) = none →
        (⟨0, "A", some "t", none, none⟩ : MContact).name = m.name) ∧
      (∀ v, (none : Option String) = some v →
        (⟨0, "A", some "t", none, none⟩ : MContact).name = v) ∧
      ((some "t" : Option String) = none →
        (⟨0, "A", some "t", none, none⟩ : MContact).telegram = m.telegram) ∧
      (∀ v, (some "t" : Option String) = some v →
        (⟨0, "A", some "t", none, none⟩ : MContact).telegram = some v) ∧
      ((none : Option String) = none →
        (⟨0, "A", some "t", none, none⟩ : MContact).phone = m.phone) ∧
      (∀ v, (none : Option String) = some v →
        (⟨0, "A", some "t", none, none⟩ : MContact).phone = some v) ∧
      ((none : Option String) = none →
        (⟨0, "A", some "t", none, none⟩ : MContact).birthday = m.birthday) ∧
      (∀ v, (none : Option String) = some v →
        (⟨0, "A", some "t", none, none⟩ : MContact).birthday = some v) ∧
      (⟨[⟨0, "A", some "t", none, none⟩], [⟨0, "A", some "t", none, none⟩]⟩
        : Session).base
        = (⟨[⟨0, "A", some "t", none, none⟩], [⟨0, "A", some "t", none, none⟩]⟩
          : Session).cur ∧
      (⟨[⟨0, "A", some "t", none, none⟩], [⟨0, "A", some "t", none, none⟩]⟩
        : Session).cur
        = [(⟨0, "A", none, none, none⟩ : MContact)].map
            (fun c => if c.id = 0 then applyUpdate c ⟨none, some "t", none, none⟩ else c) ∧
      (∀ c ∈ ([⟨0, "A", none, none, none⟩] : List MContact), c.id ≠ 0 →
        c ∈ (⟨[⟨0, "A", some "t", none, none⟩], [⟨0, "A", some "t", none, none⟩]⟩
          : Session).cur) :=
  update_partial_frame ⟨[⟨0, "A", none, none, none⟩], [⟨0, "A", none, none, none⟩]⟩
    0 ⟨none, some "t", none, none⟩
    ⟨[⟨0, "A", some "t", none, none⟩], [⟨0, "A", some "t", none, none⟩]⟩
    ⟨0, "A", some "t", none, none⟩ (by decide)

theorem recordLine_head (name : String) (d : Int) (tg : String → String) :
    (recordLine name d tg).data.head? = some '—' := rfl

theorem recordLine_ne_header (name : String) (d : Int) (tg : String → String)
    (t : Tier) : recordLine name d tg ≠ headerOf t := by
  intro hc
  have h1 : (recordLine name d tg).data.head? = some '—' := rfl
  rw [hc] at h1
  cases t <;> exact absurd h1 (by decide)

theorem statsfold_eq_flag (tg : String → String) :
    ∀ (l : List (String × Int)) (R : List String) (r a lo : Bool),
      ("*Recent:*" ∈ R ↔ r = true) →
      ("*Average:*" ∈ R ↔ a = true) →
      ("*Long*:" ∈ R ↔ lo = true) →
      l.foldl (statsStep tg) R = R ++ flagLines tg r a lo l := by
  intro l
  induction l with
  | nil =>
    intro R r a lo _ _ _
    simp [flagLines]
  | cons p rest ih =>
    obtain ⟨name, d⟩ := p
    intro R r a lo hr ha hlo
    have hner : recordLine name d tg ≠ "*Recent:*" :=
      recordLine_ne_header name d tg Tier.recent
    have hnea : recordLine name d tg ≠ "*Average:*" :=
      recordLine_ne_header name d tg Tier.average
    have hnel : recordLine name d tg ≠ "*Long*:" :=
      recordLine_ne_header name d tg Tier.long
    rw [List.foldl_cons]
    by_cases h7 : d < 7
    · have hn2 : ¬ (7 ≤ d) := by omega
      have hn3 : ¬ (30 ≤ d) := by omega
      have hd1 : decide (d < 7) = true := decide_eq_true h7
      have hd2 : decide (7 ≤ d ∧ d < 30) = false := decide_eq_false (by omega)
      have hd3 : decide (30 ≤ d) = false := decide_eq_false (by omega)
      cases r with
      | false =>
        rw [iff_false_intro (Bool.false_ne_true), iff_false] at hr
        have hstep : statsStep tg R (name, d)
            = R ++ ["", "*Recent:*"] ++ [recordLine name d tg] := by
          unfold statsStep add_title
          rw [if_pos ⟨h7, hr⟩]
        rw [hstep, ih _ true a lo (by simp) (by simp [ha, Ne.symm hnea])
          (by simp [hlo, Ne.symm hnel])]
        simp [flagLines, hd1, hd2, hd3, h7, hn2, hn3, List.append_assoc]
      | true =>
        have hmem : "*Recent:*" ∈ R := hr.2 rfl
        have hstep : statsStep tg R (name, d) = R ++ [recordLine name d tg] := by
          unfold statsStep add_title
          rw [if_neg (fun hcon => hcon.2 hmem),
            if_neg (fun hcon => absurd hcon.1 hn2),
            if_neg (fun hcon => absurd hcon.1 hn3)]
        rw [hstep, ih _ true a lo (by simp [hmem]) (by simp [ha, Ne.symm hnea])
          (by simp [hlo, Ne.symm hnel])]
        simp [flagLines, hd1, hd2, hd3, h7, hn2, hn3, List.append_assoc]
    · by_cases h30 : d < 30
      · have hp2 : (7:Int) ≤ d := by omega
        have hn3 : ¬ (30 ≤ d) := by omega
        have hd1 : decide (d < 7) = false := decide_eq_false h7
        have hd2 : decide (7 ≤ d ∧ d < 30) = true := decide_eq_true ⟨hp2, h30⟩
        have hd3 : decide (30 ≤ d) = false := decide_eq_false (by omega)
        cases a with
        | false =>
          rw [iff_false_intro (Bool.false_ne_true), iff_false] at ha
          have hstep : statsStep tg R (name, d)
              = R ++ ["", "*Average:*"] ++ [recordLine name d tg] := by
            unfold statsStep add_title
            rw [if_neg (fun hcon => absurd hcon.1 h7), if_pos ⟨hp2, h30, ha⟩]
          rw [hstep, ih _ r true lo (by simp [hr, Ne.symm hner])
            (by simp) (by simp [hlo, Ne.symm hnel])]
          simp [flagLines, hd1, hd2, hd3, h7, hp2, h30, hn3, List.append_assoc]
        | true =>
          have hmem : "*Average:*" ∈ R := ha.2 rfl
          have hstep : statsStep tg R (name, d) = R ++ [recordLine name d tg] := by
            unfold statsStep add_title
            rw [if_neg (fun hcon => absurd hcon.1 h7),
              if_neg (fun hcon => hcon.2.2 hmem),
              if_neg (fun hcon => absurd hcon.1 hn3)]
          rw [hstep, ih _ r true lo (by simp [hr, Ne.symm hner]) (by simp [hmem])
            (by simp [hlo, Ne.symm hnel])]
          simp [flagLines, hd1, hd2, hd3, h7, hp2, h30, hn3, List.append_assoc]
      · have hp3 : (30:Int) ≤ d := by omega
        have hn2 : ¬ (d < 30) := by omega
        have hd1 : decide (d < 7) = false := decide_eq_false h7
        have hd2 : decide (7 ≤ d ∧ d < 30) = false := decide_eq_false (by omega)
        have hd3 : decide (30 ≤ d) = true := decide_eq_true hp3
        cases lo with
        | false =>
          rw [iff_false_intro (Bool.false_ne_true), iff_false] at hlo
          have hstep : statsStep tg R (name, d)
              = R ++ ["", "*Long*:"] ++ [recordLine name d tg] := by
            unfold statsStep add_title
            rw [if_neg (fun hcon => absurd hcon.1 h7),
              if_neg (fun hcon => absurd hcon.2.1 hn2), if_pos ⟨hp3, hlo⟩]
          rw [hstep, ih _ r a true (by simp [hr, Ne.symm hner])
            (by simp [ha, Ne.symm hnea]) (by simp)]
          simp [flagLines, hd1, hd2, hd3, h7, hp3, hn2, List.append_assoc]
        | true =>
          have hmem : "*Long*:" ∈ R := hlo.2 rfl
          have hstep : statsStep tg R (name, d) = R ++ [recordLine name d tg] := by
            unfold statsStep add_title
            rw [if_neg (fun hcon => absurd hcon.1 h7),
              if_neg (fun hcon => absurd hcon.2.1 hn2),
              if_neg (fun hcon => hcon.2 hmem)]
          rw [hstep, ih _ r a true (by simp [hr, Ne.symm hner])
            (by simp [ha, Ne.symm hnea]) (by simp [hmem])]
          simp [flagLines, hd1, hd2, hd3, h7, hp3, hn2, List.append_assoc]

theorem flag_eq_spec (tg : String → String) :
    ∀ (l : List (String × Int)) (r a lo : Bool) (seen : List Tier),
      (r = true ↔ Tier.recent ∈ seen) →
      (a = true ↔ Tier.average ∈ seen) →
      (lo = true ↔ Tier.long ∈ seen) →
      flagLines tg r a lo l = specTierLines tg seen l := by
  intro l
  induction l with
  | nil => intro r a lo seen _ _ _; rfl
  | cons p rest ih =>
    obtain ⟨name, d⟩ := p
    intro r a lo seen hr ha hlo
    by_cases h7 : d < 7
    · have htier : tierOf d = Tier.recent := by simp [tierOf, h7]
      have hn2 : ¬ (7 ≤ d) := by omega
      have hn3 : ¬ (30 ≤ d) := by omega
      have hd1 : decide (d < 7) = true := decide_eq_true h7
      have hd2 : decide (7 ≤ d ∧ d < 30) = false := decide_eq_false (by omega)
      have hd3 : decide (30 ≤ d) = false := decide_eq_false (by omega)
      cases r with
      | false =>
        have hseen : Tier.recent ∉ seen := fun hm => Bool.false_ne_true (hr.2 hm)
        simp [flagLines, specTierLines, htier, headerOf, hd1, hd2, hd3, h7, hn2, hn3,
          hseen,
          ih true a lo (Tier.recent :: seen) (by simp) (by simp [ha]) (by simp [hlo])]
      | true =>
        have hseen : Tier.recent ∈ seen := hr.1 rfl
        simp [flagLines, specTierLines, htier, headerOf, hd1, hd2, hd3, h7, hn2, hn3,
          hseen,
          ih true a lo (Tier.recent :: seen) (by simp) (by simp [ha]) (by simp [hlo])]
    · by_cases h30 : d < 30
      · have htier : tierOf d = Tier.average := by simp [tierOf, h7, h30]
        have hp2 : (7:Int) ≤ d := by omega
        have hn3 : ¬ (30 ≤ d) := by omega
        have hd1 : decide (d < 7) = false := decide_eq_false h7
        have hd2 : decide (7 ≤ d ∧ d < 30) = true := decide_eq_true ⟨hp2, h30⟩
        have hd3 : decide (30 ≤ d) = false := decide_eq_false (by omega)
        cases a with
        | false =>
          have hseen : Tier.average ∉ seen := fun hm => Bool.false_ne_true (ha.2 hm)
          simp [flagLines, specTierLines, htier, headerOf, hd1, hd2, hd3, h7, hp2,
            h30, hn3, hseen,
            ih r true lo (Tier.average :: seen) (by simp [hr]) (by simp) (by simp [hlo])]
        | true =>
          have hseen : Tier.average ∈ seen := ha.1 rfl
          simp [flagLines, specTierLines, htier, headerOf, hd1, hd2, hd3, h7, hp2,
            h30, hn3, hseen,
            ih r true lo (Tier.average :: seen) (by simp [hr]) (by simp) (by simp [hlo])]
      · have htier : tierOf d = Tier.long := by simp [tierOf, h7, h30]
        have hp3 : (30:Int) ≤ d := by omega
        have hn2 : ¬ (d < 30) := by omega
        have hd1 : decide (d < 7) = false := decide_eq_false h7
        have hd2 : decide (7 ≤ d ∧ d < 30) = false := decide_eq_false (by omega)
        have hd3 : decide (30 ≤ d) = true := decide_eq_true hp3
        cases lo with
        | false =>
          have hseen : Tier.long ∉ seen := fun hm => Bool.false_ne_true (hlo.2 hm)
          simp [flagLines, specTierLines, htier, headerOf, hd1, hd2, hd3, h7, hp3,
            hn2, hseen,
            ih r a true (Tier.long :: seen) (by simp [hr]) (by simp [ha]) (by simp)]
        | true =>
          have hseen : Tier.long ∈ seen := hlo.1 rfl
          simp [flagLines, specTierLines, htier, headerOf, hd1, hd2, hd3, h7, hp3,
            hn2, hseen,
            ih r a true (Tier.long :: seen) (by simp [hr]) (by simp [ha]) (by simp)]

/-- C9: the source's header logic — which on every record recomputes
"already emitted" by searching the result list built so far — is
observationally equal, on every input sequence whatsoever, to the
implementation that carries one "header already emitted" boolean per tier
across the whole pass; in particular `statsLines` itself equals the
flag-based pass run over the sorted records. -/
theorem add_title_equiv_flags :
    (∀ (l : List (String × Int)) (tg : String → String),
      l.foldl (statsStep tg) [] = flagLines tg false false false l) ∧
    (∀ (records : List (String × Int)) (tg : String → String),
      statsLines records tg = flagLines tg false false false (daysSorted records)) := by
  have key : ∀ (l : List (String × Int)) (tg : String → String),
      l.foldl (statsStep tg) [] = flagLines tg false false false l := by
    intro l tg
    simpa using statsfold_eq_flag tg l [] false false false (by simp) (by simp) (by simp)
  exact ⟨key, fun records tg => key (daysSorted records) tg⟩

/-- C5: the bucketer's record lines follow the day counts sorted descending
(a stable descending sort that permutes the input); each record is
classified by the `< 7` / `< 30` thresholds, and a tier's header (with its
preceding blank line) is emitted exactly once, immediately before the first
record of that tier in sorted order — `specTierLines` makes that placement
explicit; on the spec's example the output is C(40) under `*Long*:`, B(10)
under `*Average:*`, then D(6) and A(3) under a single `*Recent:*` header. -/
theorem bucketer_sorted_tiers :
    (∀ records : List (String × Int),
      (daysSorted records).Pairwise (fun p q => q.2 ≤ p.2) ∧
      (daysSorted records).Perm records) ∧
    (∀ (records : List (String × Int)) (tg : String → String),
      statsLines records tg = specTierLines tg [] (daysSorted records)) ∧
    (statsLines [("A", 3), ("B", 10), ("C", 40), ("D", 6)] (fun _ => "") =
      ["", "*Long*:", "— 40 days: C \\(\\)", "", "*Average:*", "— 10 days: B \\(\\)",
       "", "*Recent:*", "— 6 days: D \\(\\)", "— 3 days: A \\(\\)"] ∧
     daysSorted [("A", 3), ("B", 10), ("C", 40), ("D", 6)]
       = [("C", 40), ("B", 10), ("D", 6), ("A", 3)]) := by
  refine ⟨?_, ?_, by decide⟩
  · intro records
    haveI : IsTotal (String × Int) (fun p q => q.2 ≤ p.2) :=
      ⟨fun p q => le_total q.2 p.2⟩
    haveI : IsTrans (String × Int) (fun p q => q.2 ≤ p.2) :=
      ⟨fun _ _ _ h1 h2 => le_trans h2 h1⟩
    exact ⟨List.sorted_insertionSort _ _, List.perm_insertionSort _ _⟩
  · intro records tg
    rw [show statsLines records tg = (daysSorted records).foldl (statsStep tg) []
      from rfl]
    rw [statsfold_eq_flag tg _ [] false false false (by simp) (by simp) (by simp)]
    rw [flag_eq_spec tg _ false false false [] (by simp) (by simp) (by simp)]
    simp

end Crm
